import Mathlib

/-!
Verification of the pid_ball simulation core.

The Rust sources `src/sim.rs` (Ball, Inductor, Pid, Sensor, Simulation,
Message) and `src/app.rs` (the Time step scheduler) are shallowly embedded
here. `f32` values are modelled as rationals; the Rust operations that can
panic — `f32::clamp` with inverted bounds, `Duration` underflow on
subtraction — are modelled as `Option`-valued, with `none` standing for
the panic.
-/

/-- Modelled from the spec: the compiled-in default constants that live in
`src/default.rs`, a file of this repository that is not under `src/` (only
its users are). The spec fixes only their existence ("fixed named constants
the engine is initialized with") and sign constraints on some of them, so
they are kept as an abstract record of rationals. -/
structure Defaults where
  KP : ℚ
  KI : ℚ
  KD : ℚ
  TARGET : ℚ
  NOISE : ℚ
  GRAVITATION : ℚ
  MAX_FORCE : ℚ
  MAX_FORCE_RATE : ℚ
  BALL_POS : ℚ
  BALL_VEL : ℚ
  IND_POS : ℚ
  HOLD_BALL : Bool

/-- Models `f32::signum` on the values representable in this embedding
(no NaN and no negative zero): `1` for nonnegative input, `-1` for
negative input. -/
def signumQ (x : ℚ) : ℚ :=
  if x < 0 then -1 else 1

/-- Models `f32::clamp(x, lo, hi)`: Rust asserts `lo <= hi` (panicking
otherwise, here `none`) and then returns `lo` if `x < lo`, `hi` if
`x > hi`, and `x` otherwise. -/
def clampQ (x lo hi : ℚ) : Option ℚ :=
  if lo ≤ hi then some (if x < lo then lo else if x > hi then hi else x) else none

/-- Ball from src/sim.rs: point mass with position and velocity. -/
structure Ball where
  pos : ℚ
  vel : ℚ
deriving DecidableEq

/-- Default for Ball from src/sim.rs (values from the defaults record). -/
def Ball.default (c : Defaults) : Ball :=
  { pos := c.BALL_POS, vel := c.BALL_VEL }

/-- Ball::reset from src/sim.rs. -/
def Ball.reset (c : Defaults) (_b : Ball) : Ball :=
  Ball.default c

/-- Ball::step from src/sim.rs: kick-drift-kick update with the given
force over `dt` seconds. -/
def Ball.step (b : Ball) (force dt : ℚ) : Ball :=
  let delta_vel := (1 / 2 : ℚ) * dt * force
  let vel1 := b.vel + delta_vel
  let pos1 := b.pos + vel1 * dt
  { pos := pos1, vel := vel1 + delta_vel }

/-- Inductor from src/sim.rs: fixed position, current force, and the two
limit parameters. -/
structure Inductor where
  pos : ℚ
  force : ℚ
  max_force : ℚ
  max_force_rate : ℚ
deriving DecidableEq

/-- Default for Inductor from src/sim.rs: force starts at zero. -/
def Inductor.default (c : Defaults) : Inductor :=
  { pos := c.IND_POS, force := 0, max_force := c.MAX_FORCE,
    max_force_rate := c.MAX_FORCE_RATE }

/-- Inductor::reset from src/sim.rs: zeroes the current force only. -/
def Inductor.reset (i : Inductor) : Inductor :=
  { i with force := 0 }

/-- Inductor::set_force from src/sim.rs: rate-limits the requested delta,
then clamps the amplitude to `[-max_force, max_force]`. `none` models the
panic of `f32::clamp` when `-max_force > max_force`. -/
def Inductor.set_force (i : Inductor) (force dt : ℚ) : Option Inductor :=
  let delta := force - i.force
  let delta_rate := delta / dt
  let delta2 := if |delta_rate| ≤ i.max_force_rate then delta
    else i.max_force_rate * signumQ delta * dt
  let f := i.force + delta2
  (clampQ f (-i.max_force) i.max_force).map fun f2 => { i with force := f2 }

/-- Pid from src/sim.rs: the three terms, the three gains, the previous
measured position (None right after a reset) and the target. -/
structure Pid where
  p : ℚ
  i : ℚ
  d : ℚ
  kp : ℚ
  ki : ℚ
  kd : ℚ
  prev_pos : Option ℚ
  target : ℚ
deriving DecidableEq

/-- Default for Pid from src/sim.rs. -/
def Pid.default (c : Defaults) : Pid :=
  { p := 0, i := 0, d := 0, kp := c.KP, ki := c.KI, kd := c.KD,
    prev_pos := none, target := c.TARGET }

/-- Pid::reset from src/sim.rs: zeroes the terms and forgets the previous
measurement; gains and target are untouched. -/
def Pid.reset (pid : Pid) : Pid :=
  { pid with p := 0, i := 0, d := 0, prev_pos := none }

/-- Pid::update from src/sim.rs: proportional term from the error,
integral accumulation, and derivative on the measurement (only when a
previous measurement exists). -/
def Pid.update (pid : Pid) (pos dt : ℚ) : Pid :=
  let error := pid.target - pos
  let pterm := pid.kp * error
  let iterm := pid.i + pid.ki * error
  let dterm := match pid.prev_pos with
    | some prev => pid.kd * (prev - pos) / dt
    | none => pid.d
  { pid with p := pterm, i := iterm, d := dterm, prev_pos := some pos }

/-- Pid::total from src/sim.rs. -/
def Pid.total (pid : Pid) : ℚ :=
  pid.p + pid.i + pid.d

/-- Sensor from src/sim.rs. The Rust sensor stores a `Normal(0, sigma)`
distribution and a thread-local RNG; here only `sigma` is state, and the
random draw is supplied externally (see `Sensor.pos`). -/
structure Sensor where
  sigma : ℚ
deriving DecidableEq

/-- Default for Sensor from src/sim.rs. -/
def Sensor.default (c : Defaults) : Sensor :=
  { sigma := c.NOISE }

/-- Sensor::pos from src/sim.rs: the measured position is the true
position plus one draw from `Normal(0, sigma)`. A draw from
`Normal(0, sigma)` is `sigma` times a standard-normal draw, so the
externally supplied sample `z` enters as `sigma * z`; with `sigma = 0`
the sensor is exactly noiseless, as the spec requires. -/
def Sensor.pos (sn : Sensor) (b : Ball) (z : ℚ) : ℚ :=
  b.pos + sn.sigma * z

/-- Sensor::set_sigma from src/sim.rs: rebuilds the distribution with the
new sigma. -/
def Sensor.set_sigma (_sn : Sensor) (sigma : ℚ) : Sensor :=
  { sigma := sigma }

/-- Sensor::reset from src/sim.rs: a no-op by design. -/
def Sensor.reset (sn : Sensor) : Sensor :=
  sn

/-- Message from src/sim.rs: the configuration protocol. -/
inductive Message where
  | Kp : ℚ → Message
  | Ki : ℚ → Message
  | Kd : ℚ → Message
  | Reset : Message
  | Target : ℚ → Message
  | Noise : ℚ → Message
  | Gravitation : ℚ → Message
  | MaxForce : ℚ → Message
  | MaxForceRate : ℚ → Message
  | HoldBall : Bool → Message
  | Restart : Message

/-- Data from src/sim.rs: the observable snapshot a step call returns. -/
structure Data where
  pos : ℚ
  vel : ℚ
  force : ℚ
deriving DecidableEq

/-- Simulation from src/sim.rs. -/
structure Simulation where
  pid : Pid
  ball : Ball
  ind : Inductor
  sensor : Sensor
  gravitation : ℚ
  hold_ball : Bool
deriving DecidableEq

/-- Default for Simulation from src/sim.rs. -/
def Simulation.default (c : Defaults) : Simulation :=
  { pid := Pid.default c, ball := Ball.default c, ind := Inductor.default c,
    sensor := Sensor.default c, gravitation := c.GRAVITATION,
    hold_ball := c.HOLD_BALL }

/-- Simulation::reset from src/sim.rs: resets pid, ball, inductor and
sensor; gravitation and the hold flag are untouched. -/
def Simulation.reset (c : Defaults) (s : Simulation) : Simulation :=
  { s with
    pid := s.pid.reset,
    ball := s.ball.reset c,
    ind := s.ind.reset,
    sensor := s.sensor.reset }

/-- Simulation::config from src/sim.rs: dispatches one message, mutating
exactly one field (or performing Reset/Restart). -/
def Simulation.config (c : Defaults) (s : Simulation) (msg : Message) : Simulation :=
  match msg with
  | Message.Kp kp => { s with pid := { s.pid with kp := kp } }
  | Message.Ki ki => { s with pid := { s.pid with ki := ki } }
  | Message.Kd kd => { s with pid := { s.pid with kd := kd } }
  | Message.Target t => { s with pid := { s.pid with target := t } }
  | Message.Noise sg => { s with sensor := s.sensor.set_sigma sg }
  | Message.Gravitation g => { s with gravitation := g }
  | Message.MaxForce f => { s with ind := { s.ind with max_force := f } }
  | Message.MaxForceRate f => { s with ind := { s.ind with max_force_rate := f } }
  | Message.HoldBall b => { s with hold_ball := b }
  | Message.Restart => Simulation.default c
  | Message.Reset => s.reset c

/-- One iteration of the loop body of Simulation::step from src/sim.rs:
move the ball (unless held), measure, update the PID, command the
inductor. `z` is the standard-normal sample the sensor draws this
iteration. -/
def Simulation.stepOnce (s : Simulation) (z dt : ℚ) : Option Simulation :=
  let s1 := if s.hold_ball then s else
    let dis := |s.ball.pos - s.ind.pos|
    let force := s.ind.force
    let force2 := force / (1 + dis ^ 2)
    let force3 := force2 + s.gravitation
    { s with ball := s.ball.step force3 dt }
  let pos := s1.sensor.pos s1.ball z
  let pid1 := s1.pid.update pos dt
  let force := pid1.total
  (s1.ind.set_force force dt).map fun ind1 => { s1 with pid := pid1, ind := ind1 }

/-- The loop of Simulation::step from src/sim.rs, run for `n` iterations;
`zs k` is the sensor sample of iteration `k`. -/
def Simulation.run (s : Simulation) (n : ℕ) (dt : ℚ) (zs : ℕ → ℚ) : Option Simulation :=
  match n with
  | 0 => some s
  | n + 1 => (s.stepOnce (zs 0) dt).bind fun s' =>
      Simulation.run s' n dt fun k => zs (k + 1)

/-- Simulation::step from src/sim.rs: runs the loop `steps` times and
returns the final state together with the observable Data snapshot. -/
def Simulation.step (s : Simulation) (steps : ℕ) (dt : ℚ) (zs : ℕ → ℚ) :
    Option (Simulation × Data) :=
  (s.run steps dt zs).map fun s' =>
    (s', { pos := s'.ball.pos, vel := s'.ball.vel, force := s'.ind.force })

/-- Time from src/app.rs: the step scheduler. `sim` is the simulated
duration accumulated so far (`self.sim`); the wall clock enters each call
as the elapsed-seconds argument. -/
structure Time where
  sim : ℚ

/-- Default for Time from src/app.rs: zero accumulated duration. -/
def Time.default : Time :=
  { sim := 0 }

/-- Time::step from src/app.rs: `sim_dt = elapsed - sim` (Duration
subtraction, which panics — `none` — when negative), the whole number of
sampling durations it contains, and the accumulator advanced by that many
whole durations. `d` must be positive: with `d = 0` the Rust code divides
by zero and `Duration::mul_f32` panics on the resulting non-finite value. -/
def Time.step (t : Time) (elapsed d : ℚ) : Option (ℕ × Time) :=
  if 0 < d ∧ t.sim ≤ elapsed then
    let n := (⌊(elapsed - t.sim) / d⌋).toNat
    some (n, { sim := t.sim + n * d })
  else none

/-- A sequence of Time::step calls: each list entry is the pair of the
wall-clock elapsed seconds observed at that call and the sampling duration
supplied to it; the result records, per call, the returned step count and
the accumulator value after the call. -/
def Time.run (t : Time) (calls : List (ℚ × ℚ)) : Option (List (ℕ × ℚ)) :=
  match calls with
  | [] => some []
  | (e, d) :: rest => (t.step e d).bind fun r =>
      (Time.run r.2 rest).map fun tr => (r.1, r.2.sim) :: tr

/-! Spec-side decomposition of one loop iteration, used for the ordering
claim about Simulation::step. -/

/-- Spec-side phase 1, written from the spec's words: compute
`distance = |ball.position - inductor.fixed_position|`, compute
`raw_force = inductor.force() / (1 + distance^2)` plus `gravitation`,
and advance the Ball with this force over the sampling duration. -/
def Simulation.advanceBallSpec (s : Simulation) (dt : ℚ) : Simulation :=
  let distance := |s.ball.pos - s.ind.pos|
  let raw_force := s.ind.force / (1 + distance ^ 2) + s.gravitation
  { s with ball := s.ball.step raw_force dt }

/-- Spec-side phases 2 to 4: sensor measurement, PID update, inductor
force command, in that order, all on the state produced by phase 1. -/
def Simulation.controlPhase (s : Simulation) (z dt : ℚ) : Option Simulation :=
  let pos := s.sensor.pos s.ball z
  let pid1 := s.pid.update pos dt
  (s.ind.set_force pid1.total dt).map fun ind1 => { s with pid := pid1, ind := ind1 }

/-- A sample simulation used to instantiate universally quantified
results on a concrete state. -/
def sampleDefaults : Defaults :=
  { KP := 10, KI := 1 / 10, KD := 1, TARGET := 1 / 2, NOISE := 1 / 100,
    GRAVITATION := -981 / 100, MAX_FORCE := 10, MAX_FORCE_RATE := 100,
    BALL_POS := 1 / 2, BALL_VEL := 0, IND_POS := 1, HOLD_BALL := true }

/-- A sequence of Inductor::set_force calls: each entry carries the
target force and the sampling duration of one call. -/
def Inductor.runForces (i : Inductor) (cmds : List (ℚ × ℚ)) : Option Inductor :=
  match cmds with
  | [] => some i
  | (t, dt) :: rest => (i.set_force t dt).bind fun i' => i'.runForces rest

/-- A sequence of Pid::update calls in which every measured position
equals the controller's target, one call per listed sampling duration. -/
def Pid.runAtTarget (pid : Pid) (dts : List ℚ) : Pid :=
  dts.foldl (fun q dt => q.update q.target dt) pid

/-- The scenario start state of the held-ball claim: the default
simulation after the HoldBall(true) and Noise(0) configuration
messages. -/
def Simulation.heldScenario (c : Defaults) : Simulation :=
  Simulation.config c
    (Simulation.config c (Simulation.default c) (Message.HoldBall true))
    (Message.Noise 0)

/-- Per-call bookkeeping for a sequence of Time::step calls starting from
accumulator value `sim0`: each returned step count `n` advanced the
accumulator to exactly `sim0 + n * d`, the accumulator never passed the
elapsed wall time observed by the call, and the undershoot stayed below
that call's sampling duration. -/
def Time.good : ℚ → List (ℚ × ℚ) → List (ℕ × ℚ) → Prop
  | _, [], [] => True
  | sim0, (e, d) :: calls, (n, simAfter) :: tr =>
      simAfter = sim0 + n * d ∧ simAfter ≤ e ∧ e - simAfter < d ∧
        Time.good simAfter calls tr
  | _, _ :: _, [] => False
  | _, [], _ :: _ => False

/-- The sum, over a sequence of Time::step calls, of the returned step
count times the sampling duration supplied to that same call. -/
def stepsTimesDur (calls : List (ℚ × ℚ)) (tr : List (ℕ × ℚ)) : ℚ :=
  ((calls.zip tr).map fun pr => (pr.2.1 : ℚ) * pr.1.2).sum

/-- Claim C1: with `hold_ball = false`, each iteration of
Simulation::step first advances the Ball with the force
`inductor.force() / (1 + distance^2) + gravitation` computed from the
iteration's starting state, and only then runs the sensor measurement,
the PID update and the inductor force command of that same iteration;
and the step loop is exactly the iteration of that body. -/
theorem claim_C1_step_order (s : Simulation) (z dt : ℚ) (n : ℕ) (zs : ℕ → ℚ)
    (h : s.hold_ball = false) :
    s.stepOnce z dt = (s.advanceBallSpec dt).controlPhase z dt ∧
    Simulation.run s (n + 1) dt zs =
      (s.stepOnce (zs 0) dt).bind fun s' =>
        Simulation.run s' n dt fun k => zs (k + 1) := by
  constructor
  · simp only [Simulation.stepOnce, Simulation.advanceBallSpec,
      Simulation.controlPhase, h, Bool.false_eq_true, if_false]
  · rfl

/-- Witness for claim C1 at a concrete non-held simulation state. -/
theorem claim_C1_step_order_witness :
    ({ Simulation.default sampleDefaults with hold_ball := false }.hold_ball = false) ∧
    ({ Simulation.default sampleDefaults with hold_ball := false }.stepOnce 0 (1 / 100) =
      ({ Simulation.default sampleDefaults with hold_ball := false }.advanceBallSpec
        (1 / 100)).controlPhase 0 (1 / 100) ∧
     Simulation.run { Simulation.default sampleDefaults with hold_ball := false } 3 (1 / 100)
        (fun _ => 0) =
      (({ Simulation.default sampleDefaults with hold_ball := false }).stepOnce 0
          (1 / 100)).bind fun s' =>
        Simulation.run s' 2 (1 / 100) fun _ => 0) :=
  ⟨rfl, claim_C1_step_order _ 0 (1 / 100) 2 (fun _ => 0) rfl⟩

/-- Claim C4: applying Restart takes any simulation state back to the
compiled-in defaults in full; applying Reset zeroes the PID terms and
previous measurement, restores the ball to its default, zeroes the
inductor force, and leaves gains, target, force limits, sigma,
gravitation and the hold flag untouched. The universal quantification
over the state covers every state reachable by configuration changes. -/
theorem claim_C4_restart_reset (c : Defaults) (s : Simulation) :
    Simulation.config c s Message.Restart = Simulation.default c ∧
    Simulation.config c s Message.Reset =
      { s with
        pid := { s.pid with p := 0, i := 0, d := 0, prev_pos := none },
        ball := Ball.default c,
        ind := { s.ind with force := 0 } } :=
  ⟨rfl, rfl⟩

/-- Claim C6 counterexample: with zero force, positive `dt = 1` and a
ball at position 0 with velocity 1, Ball::step moves the position to 1,
so position is not unchanged for every starting ball state. -/
theorem claim_C6_counterexample :
    (0 : ℚ) < 1 ∧ Ball.step { pos := 0, vel := 1 } 0 1 = { pos := 1, vel := 1 } ∧
    (Ball.step { pos := 0, vel := 1 } 0 1).pos ≠ (Ball.mk 0 1).pos := by
  refine ⟨by norm_num, ?_, ?_⟩ <;> norm_num [Ball.step]

/-- Claim C6 (amended): for all `dt > 0` and zero net force, Ball::step
leaves the velocity unchanged and moves the position by `vel * dt`; the
position is unchanged exactly when the starting velocity is zero. -/
theorem claim_C6_zero_force (b : Ball) (dt : ℚ) (hdt : 0 < dt) :
    (b.step 0 dt).vel = b.vel ∧ (b.step 0 dt).pos = b.pos + b.vel * dt ∧
    ((b.step 0 dt).pos = b.pos ↔ b.vel = 0) := by
  refine ⟨by simp [Ball.step], by simp [Ball.step], ?_⟩
  simp only [Ball.step]
  constructor
  · intro h
    have hv : b.vel * dt = 0 := by linarith [h]
    rcases mul_eq_zero.mp hv with h1 | h1
    · exact h1
    · exact absurd h1 (ne_of_gt hdt)
  · intro h
    simp [h]

/-- Witness for claim C6 (amended) at a ball at rest and `dt = 1`. -/
theorem claim_C6_zero_force_witness :
    (0 : ℚ) < 1 ∧
    ((Ball.mk 0 0).step 0 1).vel = (Ball.mk 0 0).vel ∧
    ((Ball.mk 0 0).step 0 1).pos = (Ball.mk 0 0).pos + (Ball.mk 0 0).vel * 1 ∧
    (((Ball.mk 0 0).step 0 1).pos = (Ball.mk 0 0).pos ↔ (Ball.mk 0 0).vel = 0) :=
  ⟨by norm_num, claim_C6_zero_force (Ball.mk 0 0) 1 (by norm_num)⟩

/-- Claim C9: an Inductor with `max_force = 5`, `max_force_rate = 1000`
and zero current force, commanded once with `set_force(10, 0.1s)`, ends
with current force exactly 5: the implied rate 100 passes the rate
limit, and the amplitude clamp to `[-5, 5]` binds. -/
theorem claim_C9_clamp_binds (p : ℚ) :
    Inductor.set_force { pos := p, force := 0, max_force := 5, max_force_rate := 1000 }
      10 (1 / 10) =
    some { pos := p, force := 5, max_force := 5, max_force_rate := 1000 } := by
  norm_num [Inductor.set_force, clampQ, signumQ, abs]

/-- Helper: a successful clamp lands in the interval. -/
theorem clampQ_mem (x lo hi y : ℚ) (h : clampQ x lo hi = some y) :
    lo ≤ y ∧ y ≤ hi := by
  unfold clampQ at h
  split_ifs at h with h1 h2 h3
  · obtain rfl := Option.some.inj h
    exact ⟨le_rfl, h1⟩
  · obtain rfl := Option.some.inj h
    exact ⟨h1, le_rfl⟩
  · obtain rfl := Option.some.inj h
    exact ⟨le_of_not_lt h2, le_of_not_lt h3⟩

/-- Helper: clamping `x + d` to an interval that contains `x` moves the
point by at most `|d|`. -/
theorem clampQ_dist (x d lo hi y : ℚ) (hx1 : lo ≤ x) (hx2 : x ≤ hi)
    (h : clampQ (x + d) lo hi = some y) : |y - x| ≤ |d| := by
  unfold clampQ at h
  split_ifs at h with h1 h2 h3
  · obtain rfl := Option.some.inj h
    rw [abs_of_nonpos (by linarith)]
    have hd := neg_abs_le d
    linarith
  · obtain rfl := Option.some.inj h
    rw [abs_of_nonneg (by linarith)]
    have hd := le_abs_self d
    linarith
  · obtain rfl := Option.some.inj h
    have hxy : x + d - x = d := by ring
    rw [hxy]

/-- Helper: a successful Inductor::set_force leaves the position and both
limit parameters unchanged. -/
theorem Inductor.set_force_frame (i i' : Inductor) (t dt : ℚ)
    (h : i.set_force t dt = some i') :
    i'.pos = i.pos ∧ i'.max_force = i.max_force ∧
      i'.max_force_rate = i.max_force_rate := by
  simp only [Inductor.set_force] at h
  obtain ⟨y, _, heq⟩ := Option.map_eq_some'.mp h
  subst heq
  exact ⟨rfl, rfl, rfl⟩

/-- Helper: a successful Inductor::set_force ends with the force clamped
into the amplitude interval. -/
theorem Inductor.set_force_bound (i i' : Inductor) (t dt : ℚ)
    (h : i.set_force t dt = some i') : |i'.force| ≤ i'.max_force := by
  simp only [Inductor.set_force] at h
  obtain ⟨y, hy, heq⟩ := Option.map_eq_some'.mp h
  obtain ⟨hl, hr⟩ := clampQ_mem _ _ _ _ hy
  subst heq
  exact abs_le.mpr ⟨by linarith, hr⟩

/-- Claim C2: a successful Inductor::set_force always leaves
`|current_force| ≤ max_force`, and along any nonempty sequence of
set_force calls the final state satisfies the same invariant (every
intermediate state of a sequence is the final state of a prefix, so the
invariant holds at all times after an update). -/
theorem claim_C2_amplitude_invariant :
    (∀ (i i' : Inductor) (t dt : ℚ), 0 < dt → i.set_force t dt = some i' →
      |i'.force| ≤ i'.max_force) ∧
    (∀ (cmds : List (ℚ × ℚ)) (i i' : Inductor), cmds ≠ [] →
      (∀ pr ∈ cmds, 0 < pr.2) → i.runForces cmds = some i' →
      |i'.force| ≤ i'.max_force) := by
  constructor
  · intro i i' t dt _ h
    exact Inductor.set_force_bound i i' t dt h
  · intro cmds
    induction cmds with
    | nil => intro i i' h; exact absurd rfl h
    | cons hd rest ih =>
      intro i i' _ hpos hrun
      obtain ⟨t, dt⟩ := hd
      simp only [Inductor.runForces] at hrun
      obtain ⟨i1, h1, h2⟩ := Option.bind_eq_some.mp hrun
      rcases rest with _ | ⟨hd2, rest2⟩
      · simp only [Inductor.runForces] at h2
        obtain rfl := Option.some.inj h2
        exact Inductor.set_force_bound _ _ t dt h1
      · exact ih i1 i' (by simp)
          (fun pr hpr => hpos pr (List.mem_cons_of_mem _ hpr)) h2

/-- Witness for claim C2 on a one-call sequence from a concrete
inductor. -/
theorem claim_C2_amplitude_invariant_witness :
    ([((10 : ℚ), (1 : ℚ) / 10)] ≠ []) ∧
    (∀ pr ∈ [((10 : ℚ), (1 : ℚ) / 10)], 0 < pr.2) ∧
    Inductor.runForces { pos := 0, force := 0, max_force := 5, max_force_rate := 1000 }
      [(10, 1 / 10)] =
      some { pos := 0, force := 5, max_force := 5, max_force_rate := 1000 } ∧
    |(Inductor.mk 0 5 5 1000).force| ≤ (Inductor.mk 0 5 5 1000).max_force := by
  refine ⟨by simp, by norm_num, ?_, ?_⟩
  · norm_num [Inductor.runForces, Inductor.set_force, clampQ, signumQ, abs]
  · exact claim_C2_amplitude_invariant.2 [(10, 1 / 10)]
      { pos := 0, force := 0, max_force := 5, max_force_rate := 1000 } _
      (by simp) (by norm_num)
      (by norm_num [Inductor.runForces, Inductor.set_force, clampQ, signumQ, abs])

/-- Claim C5 counterexample: an inductor whose current force 100 lies
outside the configured amplitude range `[-0, 0]` loses 100 units of
force in a single set_force call with `max_force_rate = 1` and `dt = 1`,
far more than `max_force_rate * dt = 1`; so the per-call force delta is
not bounded by `max_force_rate * dt` for every inductor state. -/
theorem claim_C5_counterexample :
    Inductor.set_force { pos := 0, force := 100, max_force := 0, max_force_rate := 1 }
      100 1 =
      some { pos := 0, force := 0, max_force := 0, max_force_rate := 1 } ∧
    (0 : ℚ) < 1 ∧ ¬ (|(0 : ℚ) - 100| ≤ 1 * 1) := by
  refine ⟨?_, by norm_num, by rw [abs_sub_comm]; norm_num [abs]⟩
  norm_num [Inductor.set_force, clampQ, signumQ, abs]

/-- Claim C5 (amended): under the inductor's own invariant
`|current_force| ≤ max_force` and a nonnegative `max_force_rate`, the
change of the current force in one successful set_force call is at most
`max_force_rate * dt` in magnitude, for every target force and every
positive `dt`. -/
theorem claim_C5_rate_limit (i i' : Inductor) (t dt : ℚ) (hdt : 0 < dt)
    (hinv : |i.force| ≤ i.max_force) (hrate : 0 ≤ i.max_force_rate)
    (h : i.set_force t dt = some i') :
    |i'.force - i.force| ≤ i.max_force_rate * dt := by
  simp only [Inductor.set_force] at h
  obtain ⟨y, hy, heq⟩ := Option.map_eq_some'.mp h
  obtain ⟨hf1, hf2⟩ := abs_le.mp hinv
  have hdist : |y - i.force| ≤
      |if |(t - i.force) / dt| ≤ i.max_force_rate then t - i.force
        else i.max_force_rate * signumQ (t - i.force) * dt| :=
    clampQ_dist i.force _ _ _ y (by linarith) hf2 hy
  have hbound : |if |(t - i.force) / dt| ≤ i.max_force_rate then t - i.force
      else i.max_force_rate * signumQ (t - i.force) * dt| ≤
      i.max_force_rate * dt := by
    split_ifs with hc
    · have h1 : |(t - i.force) / dt| = |t - i.force| / dt := by
        rw [abs_div, abs_of_pos hdt]
      rw [h1] at hc
      have h2 : |t - i.force| / dt * dt ≤ i.max_force_rate * dt :=
        mul_le_mul_of_nonneg_right hc (le_of_lt hdt)
      have h3 : |t - i.force| / dt * dt = |t - i.force| := by
        field_simp
      rw [h3] at h2
      exact h2
    · unfold signumQ
      split_ifs with hneg
      · rw [show i.max_force_rate * (-1) * dt = -(i.max_force_rate * dt) by ring,
          abs_neg, abs_of_nonneg (mul_nonneg hrate (le_of_lt hdt))]
      · rw [mul_one, abs_of_nonneg (mul_nonneg hrate (le_of_lt hdt))]
  subst heq
  exact le_trans hdist hbound

/-- Witness for claim C5 (amended) at a concrete inductor and call. -/
theorem claim_C5_rate_limit_witness :
    (0 : ℚ) < 1 / 10 ∧
    |(Inductor.mk 0 0 5 1000).force| ≤ (Inductor.mk 0 0 5 1000).max_force ∧
    (0 : ℚ) ≤ (Inductor.mk 0 0 5 1000).max_force_rate ∧
    Inductor.set_force (Inductor.mk 0 0 5 1000) 10 (1 / 10) =
      some (Inductor.mk 0 5 5 1000) ∧
    |(Inductor.mk 0 5 5 1000).force - (Inductor.mk 0 0 5 1000).force| ≤
      (Inductor.mk 0 0 5 1000).max_force_rate * (1 / 10) := by
  refine ⟨by norm_num, by norm_num [abs], by norm_num, ?_, ?_⟩
  · norm_num [Inductor.set_force, clampQ, signumQ, abs]
  · exact claim_C5_rate_limit (Inductor.mk 0 0 5 1000) (Inductor.mk 0 5 5 1000)
      10 (1 / 10) (by norm_num) (by norm_num [abs]) (by norm_num)
      (by norm_num [Inductor.set_force, clampQ, signumQ, abs])

/-- Helper: along a run of Pid::update calls that always measure the
target, the three terms stay zero and the remembered previous
measurement is either absent or equal to the target. -/
theorem Pid.runAtTarget_inv (dts : List ℚ) (q : Pid)
    (h : q.p = 0 ∧ q.i = 0 ∧ q.d = 0 ∧
      (q.prev_pos = none ∨ q.prev_pos = some q.target)) :
    (Pid.runAtTarget q dts).p = 0 ∧ (Pid.runAtTarget q dts).i = 0 ∧
    (Pid.runAtTarget q dts).d = 0 ∧
    ((Pid.runAtTarget q dts).prev_pos = none ∨
      (Pid.runAtTarget q dts).prev_pos = some (Pid.runAtTarget q dts).target) := by
  induction dts generalizing q with
  | nil => exact h
  | cons dt rest ih =>
    simp only [Pid.runAtTarget, List.foldl_cons] at *
    apply ih
    obtain ⟨hp, hi, hd, hprev⟩ := h
    refine ⟨by simp [Pid.update], by simp [Pid.update, hi], ?_, by simp [Pid.update]⟩
    rcases hprev with h0 | h0 <;> simp [Pid.update, h0, hd]

/-- Claim C7: starting from a reset PID state, if every update measures
exactly the target (with any sampling durations, all positive), the p
term and the d term are zero after every call and the i term keeps its
reset value zero; and in general one update leaves the i term unchanged
exactly when the gain ki is zero or the error is zero. -/
theorem claim_C7_pid_at_target (pid0 : Pid) (dts : List ℚ)
    (hdts : ∀ dt ∈ dts, 0 < dt) :
    ((Pid.runAtTarget pid0.reset dts).p = 0 ∧
     (Pid.runAtTarget pid0.reset dts).d = 0 ∧
     (Pid.runAtTarget pid0.reset dts).i = 0) ∧
    (∀ (q : Pid) (pos dt : ℚ),
      (q.update pos dt).i = q.i ↔ (q.ki = 0 ∨ q.target - pos = 0)) := by
  constructor
  · have hinv := Pid.runAtTarget_inv dts pid0.reset ⟨rfl, rfl, rfl, Or.inl rfl⟩
    exact ⟨hinv.1, hinv.2.2.1, hinv.2.1⟩
  · intro q pos dt
    simp only [Pid.update]
    constructor
    · intro h
      have hz : q.ki * (q.target - pos) = 0 := by linarith
      exact mul_eq_zero.mp hz
    · intro h
      rcases h with h | h <;> simp [h]

/-- Witness for claim C7: two updates at the target from a reset
concrete controller. -/
theorem claim_C7_pid_at_target_witness :
    (∀ dt ∈ [(1 : ℚ), 1 / 2], 0 < dt) ∧
    (((Pid.runAtTarget (Pid.default sampleDefaults).reset [1, 1 / 2]).p = 0 ∧
      (Pid.runAtTarget (Pid.default sampleDefaults).reset [1, 1 / 2]).d = 0 ∧
      (Pid.runAtTarget (Pid.default sampleDefaults).reset [1, 1 / 2]).i = 0) ∧
     (∀ (q : Pid) (pos dt : ℚ),
       (q.update pos dt).i = q.i ↔ (q.ki = 0 ∨ q.target - pos = 0))) :=
  ⟨by norm_num, claim_C7_pid_at_target (Pid.default sampleDefaults) [1, 1 / 2]
    (by norm_num)⟩

/-- Helper: with a nonnegative max_force the clamp bounds are ordered, so
Inductor::set_force cannot hit the clamp panic and preserves max_force. -/
theorem Inductor.set_force_total (i : Inductor) (t dt : ℚ) (h : 0 ≤ i.max_force) :
    ∃ i', i.set_force t dt = some i' ∧ i'.max_force = i.max_force := by
  have hle : -i.max_force ≤ i.max_force := by linarith
  simp only [Inductor.set_force, clampQ, hle, if_true, Option.map_some]
  exact ⟨_, rfl, rfl⟩

/-- Helper: with a negative max_force the clamp bounds are inverted and
Inductor::set_force hits the clamp panic. -/
theorem Inductor.set_force_neg_none (i : Inductor) (t dt : ℚ)
    (h : i.max_force < 0) : i.set_force t dt = none := by
  have hlt : ¬ (-i.max_force ≤ i.max_force) := by intro hc; linarith
  simp only [Inductor.set_force, clampQ, hlt, if_false]
  rfl

/-- Helper: one step iteration with the ball held and ordered clamp
bounds succeeds and does not touch the ball, the hold flag or the
amplitude limit. -/
theorem Simulation.stepOnce_held (s : Simulation) (z dt : ℚ)
    (hold : s.hold_ball = true) (hM : 0 ≤ s.ind.max_force) :
    ∃ s', s.stepOnce z dt = some s' ∧ s'.ball = s.ball ∧
      s'.hold_ball = true ∧ s'.ind.max_force = s.ind.max_force := by
  obtain ⟨i', hi', hM'⟩ :=
    Inductor.set_force_total s.ind
      ((s.pid.update (s.sensor.pos s.ball z) dt).total) dt hM
  refine ⟨{ s with pid := s.pid.update (s.sensor.pos s.ball z) dt, ind := i' },
    ?_, rfl, hold, hM'⟩
  simp only [Simulation.stepOnce, hold, if_true, hi']
  rfl

/-- Helper: the step loop with the ball held and ordered clamp bounds
succeeds for any iteration count and leaves the ball untouched. -/
theorem Simulation.run_held (n : ℕ) (s : Simulation) (dt : ℚ) (zs : ℕ → ℚ)
    (hold : s.hold_ball = true) (hM : 0 ≤ s.ind.max_force) :
    ∃ s', Simulation.run s n dt zs = some s' ∧ s'.ball = s.ball := by
  induction n generalizing s zs with
  | zero => exact ⟨s, rfl, rfl⟩
  | succ n ih =>
    obtain ⟨s1, hs1, hb, hh, hm⟩ := Simulation.stepOnce_held s (zs 0) dt hold hM
    obtain ⟨s', hs', hb'⟩ := ih s1 (fun k => zs (k + 1)) hh (by rw [hm]; exact hM)
    refine ⟨s', ?_, hb'.trans hb⟩
    simp only [Simulation.run, hs1, Option.bind_some]
    exact hs'

/-- Claim C8: from the default simulation reconfigured to hold the ball
with zero sensor noise, any number of step iterations (in particular the
scenario's step(100, 0.01s)) succeeds and leaves the ball's position and
velocity exactly at their compiled-in defaults. -/
theorem claim_C8_held_ball (c : Defaults) (zs : ℕ → ℚ) (n : ℕ)
    (hM : 0 ≤ c.MAX_FORCE) :
    (∃ s', Simulation.run (Simulation.heldScenario c) n (1 / 100) zs = some s' ∧
      s'.ball.pos = c.BALL_POS ∧ s'.ball.vel = c.BALL_VEL) ∧
    (∃ r, Simulation.step (Simulation.heldScenario c) 100 (1 / 100) zs = some r ∧
      r.2.pos = c.BALL_POS ∧ r.2.vel = c.BALL_VEL) := by
  have h1 : ∀ m, ∃ s',
      Simulation.run (Simulation.heldScenario c) m (1 / 100) zs = some s' ∧
      s'.ball.pos = c.BALL_POS ∧ s'.ball.vel = c.BALL_VEL := by
    intro m
    obtain ⟨s', hs', hb⟩ :=
      Simulation.run_held m (Simulation.heldScenario c) (1 / 100) zs rfl hM
    exact ⟨s', hs', by rw [hb]; rfl, by rw [hb]; rfl⟩
  refine ⟨h1 n, ?_⟩
  obtain ⟨s', hs', hp, hv⟩ := h1 100
  refine ⟨(s', { pos := s'.ball.pos, vel := s'.ball.vel, force := s'.ind.force }),
    ?_, hp, hv⟩
  simp only [Simulation.step, hs']
  rfl

/-- Witness for claim C8 at concrete defaults and zero noise draws. -/
theorem claim_C8_held_ball_witness :
    (0 : ℚ) ≤ sampleDefaults.MAX_FORCE ∧
    ((∃ s', Simulation.run (Simulation.heldScenario sampleDefaults) 100 (1 / 100)
        (fun _ => 0) = some s' ∧
      s'.ball.pos = sampleDefaults.BALL_POS ∧
      s'.ball.vel = sampleDefaults.BALL_VEL) ∧
     (∃ r, Simulation.step (Simulation.heldScenario sampleDefaults) 100 (1 / 100)
        (fun _ => 0) = some r ∧
      r.2.pos = sampleDefaults.BALL_POS ∧ r.2.vel = sampleDefaults.BALL_VEL)) :=
  ⟨by norm_num [sampleDefaults],
   claim_C8_held_ball sampleDefaults (fun _ => 0) 100 (by norm_num [sampleDefaults])⟩

/-- Helper: a step iteration on a state whose amplitude limit is
negative panics in the final clamp, whether or not the ball is held. -/
theorem Simulation.stepOnce_neg_none (s : Simulation) (z dt : ℚ)
    (h : s.ind.max_force < 0) : s.stepOnce z dt = none := by
  cases hb : s.hold_ball <;>
    simp only [Simulation.stepOnce, hb, if_true, if_false, Bool.false_eq_true,
      Inductor.set_force_neg_none _ _ _ h] <;> rfl

/-- Claim C10: Simulation::config installs a MaxForce payload without
validating the spec's nonnegativity constraint; with
`max_force >= 0` the clamp panic branch of Inductor::set_force is
unreachable; and after installing a negative max_force via a MaxForce
message, the very next Simulation::step with at least one iteration
panics in the clamp. -/
theorem claim_C10_clamp_panic :
    (∀ (c : Defaults) (s : Simulation) (f : ℚ),
      (Simulation.config c s (Message.MaxForce f)).ind.max_force = f) ∧
    (∀ (i : Inductor) (t dt : ℚ), 0 ≤ i.max_force →
      ∃ i', i.set_force t dt = some i') ∧
    (∀ (c : Defaults) (zs : ℕ → ℚ) (dt : ℚ) (n : ℕ),
      Simulation.run
        (Simulation.config c (Simulation.default c) (Message.MaxForce (-1)))
        (n + 1) dt zs = none) := by
  refine ⟨fun c s f => rfl, ?_, ?_⟩
  · intro i t dt h
    obtain ⟨i', hi', _⟩ := Inductor.set_force_total i t dt h
    exact ⟨i', hi'⟩
  · intro c zs dt n
    have hstep : (Simulation.config c (Simulation.default c)
        (Message.MaxForce (-1))).stepOnce (zs 0) dt = none :=
      Simulation.stepOnce_neg_none _ _ _ (by show (-1 : ℚ) < 0; norm_num)
    simp only [Simulation.run, hstep]
    rfl

/-- Witness for claim C10: the no-panic part applied at a concrete
inductor with nonnegative max_force. -/
theorem claim_C10_clamp_panic_witness :
    (0 : ℚ) ≤ (Inductor.mk 0 0 5 1000).max_force ∧
    ∃ i', Inductor.set_force (Inductor.mk 0 0 5 1000) 10 (1 / 10) = some i' :=
  ⟨by norm_num,
   claim_C10_clamp_panic.2.1 (Inductor.mk 0 0 5 1000) 10 (1 / 10) (by norm_num)⟩

/-- Helper: one Time::step call with a positive sampling duration and a
wall clock at or past the accumulator succeeds, returns the whole number
of owed durations, advances the accumulator by exactly that many whole
durations, never past the elapsed time, and leaves an undershoot below
one duration. -/
theorem Time.step_spec (t : Time) (e d : ℚ) (hd : 0 < d) (he : t.sim ≤ e) :
    t.step e d = some ((⌊(e - t.sim) / d⌋).toNat,
      { sim := t.sim + ((⌊(e - t.sim) / d⌋).toNat : ℚ) * d }) ∧
    t.sim + ((⌊(e - t.sim) / d⌋).toNat : ℚ) * d ≤ e ∧
    e - (t.sim + ((⌊(e - t.sim) / d⌋).toNat : ℚ) * d) < d := by
  have hcond : 0 < d ∧ t.sim ≤ e := ⟨hd, he⟩
  have hxnn : 0 ≤ e - t.sim := by linarith
  have hq : (0 : ℚ) ≤ (e - t.sim) / d := div_nonneg hxnn hd.le
  have hfl : (0 : ℤ) ≤ ⌊(e - t.sim) / d⌋ := Int.floor_nonneg.mpr hq
  have hcast : (((⌊(e - t.sim) / d⌋).toNat : ℕ) : ℚ) =
      ((⌊(e - t.sim) / d⌋ : ℤ) : ℚ) := by
    exact_mod_cast congrArg (fun z : ℤ => (z : ℚ)) (Int.toNat_of_nonneg hfl)
  have h1 : ((⌊(e - t.sim) / d⌋ : ℤ) : ℚ) * d ≤ e - t.sim := by
    calc ((⌊(e - t.sim) / d⌋ : ℤ) : ℚ) * d ≤ ((e - t.sim) / d) * d :=
          mul_le_mul_of_nonneg_right (Int.floor_le _) hd.le
      _ = e - t.sim := div_mul_cancel₀ _ (ne_of_gt hd)
  have h2 : e - t.sim < (((⌊(e - t.sim) / d⌋ : ℤ) : ℚ) + 1) * d := by
    calc e - t.sim = ((e - t.sim) / d) * d := (div_mul_cancel₀ _ (ne_of_gt hd)).symm
      _ < (((⌊(e - t.sim) / d⌋ : ℤ) : ℚ) + 1) * d :=
          mul_lt_mul_of_pos_right (Int.lt_floor_add_one _) hd
  refine ⟨?_, by rw [hcast]; linarith, by rw [hcast]; nlinarith [h2]⟩
  simp only [Time.step, hcond, and_self, if_true]

/-- Claim C3: for any sequence of Time::step calls whose observed
elapsed wall times are nondecreasing (and start at or past the
accumulator) and whose sampling durations are positive, every call
succeeds; after each call the accumulator equals its previous value plus
the returned step count times that call's duration, never exceeds the
elapsed wall time observed by the call, and undershoots it by less than
one sampling duration; and the total of returned step counts times their
respective durations never exceeds the last observed elapsed time. -/
theorem claim_C3_scheduler (calls : List (ℚ × ℚ)) (t : Time)
    (hchain : List.Chain (fun a b : ℚ => a ≤ b) t.sim (calls.map Prod.fst))
    (hpos : ∀ pr ∈ calls, 0 < pr.2) :
    ∃ tr, Time.run t calls = some tr ∧ Time.good t.sim calls tr ∧
      ∀ e d, calls.getLast? = some (e, d) →
        t.sim + stepsTimesDur calls tr ≤ e := by
  induction calls generalizing t with
  | nil =>
    refine ⟨[], rfl, trivial, ?_⟩
    intro e d h
    simp at h
  | cons hd rest ih =>
    obtain ⟨e, d⟩ := hd
    rw [List.map_cons] at hchain
    cases hchain with
    | cons hle hchain' =>
      have hd0 : 0 < d := hpos (e, d) (List.mem_cons_self _ _)
      obtain ⟨hstep, hle', hlt⟩ := Time.step_spec t e d hd0 hle
      have hchain2 : List.Chain (fun a b : ℚ => a ≤ b)
          (t.sim + ((⌊(e - t.sim) / d⌋).toNat : ℚ) * d) (rest.map Prod.fst) := by
        cases hrest : rest.map Prod.fst with
        | nil => exact List.Chain.nil
        | cons e2 es =>
          rw [hrest] at hchain'
          cases hchain' with
          | cons h12 h' => exact List.Chain.cons (by linarith) h'
      obtain ⟨tr, hrun, hgood, hsum⟩ :=
        ih { sim := t.sim + ((⌊(e - t.sim) / d⌋).toNat : ℚ) * d } hchain2
          (fun pr hpr => hpos pr (List.mem_cons_of_mem _ hpr))
      refine ⟨((⌊(e - t.sim) / d⌋).toNat,
        t.sim + ((⌊(e - t.sim) / d⌋).toNat : ℚ) * d) :: tr, ?_, ?_, ?_⟩
      · simp only [Time.run, hstep]
        rw [show ((some ((⌊(e - t.sim) / d⌋).toNat,
            ({ sim := t.sim + ((⌊(e - t.sim) / d⌋).toNat : ℚ) * d } : Time))).bind
            fun r => (Time.run r.2 rest).map fun tr2 => (r.1, r.2.sim) :: tr2) =
            (Time.run { sim := t.sim + ((⌊(e - t.sim) / d⌋).toNat : ℚ) * d } rest).map
              fun tr2 => (((⌊(e - t.sim) / d⌋).toNat,
                t.sim + ((⌊(e - t.sim) / d⌋).toNat : ℚ) * d)) :: tr2 from rfl]
        rw [hrun]
        rfl
      · exact ⟨rfl, hle', hlt, hgood⟩
      · intro eL dL hlast
        rcases rest with _ | ⟨hd2, rest2⟩
        · simp only [List.getLast?_singleton, Option.some.injEq] at hlast
          obtain ⟨rfl, rfl⟩ := Prod.ext_iff.mp hlast
          have h0 : ([] : List (ℕ × ℚ)) = tr := Option.some.inj hrun
          subst h0
          simp only [stepsTimesDur, List.zip_cons_cons, List.zip_nil_right,
            List.map_cons, List.map_nil, List.sum_cons, List.sum_nil, add_zero]
          exact hle'
        · have hlast' : (hd2 :: rest2).getLast? = some (eL, dL) := by
            rwa [List.getLast?_cons_cons] at hlast
          have hthis : t.sim + ((⌊(e - t.sim) / d⌋).toNat : ℚ) * d +
              stepsTimesDur (hd2 :: rest2) tr ≤ eL := hsum eL dL hlast'
          have hsd : stepsTimesDur ((e, d) :: hd2 :: rest2)
              ((((⌊(e - t.sim) / d⌋).toNat,
                t.sim + ((⌊(e - t.sim) / d⌋).toNat : ℚ) * d)) :: tr) =
              ((⌊(e - t.sim) / d⌋).toNat : ℚ) * d +
                stepsTimesDur (hd2 :: rest2) tr := by
            simp [stepsTimesDur]
          rw [hsd]
          linarith

/-- Witness for claim C3: two scheduler calls with elapsed times 0.25s
and 0.3s at a 0.1s sampling duration. -/
theorem claim_C3_scheduler_witness :
    List.Chain (fun a b : ℚ => a ≤ b) (Time.mk 0).sim
      (([((1 : ℚ) / 4, (1 : ℚ) / 10), (3 / 10, 1 / 10)]).map Prod.fst) ∧
    (∀ pr ∈ [((1 : ℚ) / 4, (1 : ℚ) / 10), ((3 : ℚ) / 10, (1 : ℚ) / 10)], 0 < pr.2) ∧
    ∃ tr, Time.run (Time.mk 0) [(1 / 4, 1 / 10), (3 / 10, 1 / 10)] = some tr ∧
      Time.good (Time.mk 0).sim [(1 / 4, 1 / 10), (3 / 10, 1 / 10)] tr ∧
      ∀ e d, ([((1 : ℚ) / 4, (1 : ℚ) / 10), ((3 : ℚ) / 10, (1 : ℚ) / 10)]).getLast? =
          some (e, d) →
        (Time.mk 0).sim + stepsTimesDur [(1 / 4, 1 / 10), (3 / 10, 1 / 10)] tr ≤ e := by
  have hchain : List.Chain (fun a b : ℚ => a ≤ b) (Time.mk 0).sim
      (([((1 : ℚ) / 4, (1 : ℚ) / 10), (3 / 10, 1 / 10)]).map Prod.fst) := by
    simp only [List.map_cons, List.map_nil]
    exact List.Chain.cons (by norm_num) (List.Chain.cons (by norm_num) List.Chain.nil)
  have hpos : ∀ pr ∈ [((1 : ℚ) / 4, (1 : ℚ) / 10), ((3 : ℚ) / 10, (1 : ℚ) / 10)],
      0 < pr.2 := by norm_num
  exact ⟨hchain, hpos, claim_C3_scheduler _ (Time.mk 0) hchain hpos⟩
